import Mathlib

/-!
Verification development for the QMF management agent core
(qpid-cpp, src/qpid/agent/ManagementAgentImpl.cpp), as a shallow embedding.
Association lists model the std::map containers; machine integers are Nat
with explicit mod 2^16 where the source relies on uint16_t wraparound.
-/

namespace ManagementAgent

/-- Variant-like values carried in QMF map and list bodies (qpid::types::Variant). -/
inductive QVal where
  | vnull : QVal
  | num : Nat → QVal
  | str : String → QVal
  | vmap : List (String × QVal) → QVal
  | vlist : List QVal → QVal

abbrev VMap := List (String × QVal)

/-- std::map::find over an association list (first matching key). -/
def assocFind {α β : Type} [DecidableEq α] (m : List (α × β)) (k : α) : Option β :=
  match m with
  | [] => none
  | (k2, v) :: rest => if k2 = k then some v else assocFind rest k

/-- std::map operator[] assignment: replace the entry if the key is present,
otherwise add a new entry. -/
def assocInsert {α β : Type} [DecidableEq α] (m : List (α × β)) (k : α) (v : β) :
    List (α × β) :=
  match m with
  | [] => [(k, v)]
  | (k2, v2) :: rest => if k2 = k then (k, v) :: rest else (k2, v2) :: assocInsert rest k v

/-- std::map::erase by key. -/
def assocErase {α β : Type} [DecidableEq α] (m : List (α × β)) (k : α) : List (α × β) :=
  m.filter fun p => !(decide (p.1 = k))

theorem assocFind_eq_some_of_mem {α β : Type} [DecidableEq α] {m : List (α × β)} {k : α}
    {v : β} (hnd : (m.map Prod.fst).Nodup) (h : (k, v) ∈ m) : assocFind m k = some v := by
  induction m with
  | nil => cases h
  | cons p rest ih =>
    rcases p with ⟨k2, v2⟩
    simp only [List.map_cons, List.nodup_cons] at hnd
    rcases List.mem_cons.mp h with h1 | h1
    · cases h1
      simp [assocFind]
    · have hk : k2 ≠ k := by
        intro he
        exact hnd.1 (he ▸ (List.mem_map.mpr ⟨(k, v), h1, rfl⟩))
      simp [assocFind, hk]
      exact ih hnd.2 h1

theorem mem_of_assocFind_eq_some {α β : Type} [DecidableEq α] {m : List (α × β)} {k : α}
    {v : β} (h : assocFind m k = some v) : (k, v) ∈ m := by
  induction m with
  | nil => simp [assocFind] at h
  | cons p rest ih =>
    rcases p with ⟨k2, v2⟩
    by_cases hk : k2 = k
    · subst hk
      simp [assocFind] at h
      subst h
      exact List.mem_cons_self _ _
    · simp [assocFind, hk] at h
      exact List.mem_cons_of_mem _ (ih h)

theorem assocFind_value_unique {α β : Type} [DecidableEq α] {m : List (α × β)} {k : α}
    {a b : β} (hnd : (m.map Prod.fst).Nodup) (ha : (k, a) ∈ m) (hb : (k, b) ∈ m) :
    a = b := by
  have h1 := assocFind_eq_some_of_mem hnd ha
  have h2 := assocFind_eq_some_of_mem hnd hb
  rw [h1] at h2
  exact Option.some.inj h2

theorem assocFind_assocInsert_self {α β : Type} [DecidableEq α] (m : List (α × β))
    (k : α) (v : β) : assocFind (assocInsert m k v) k = some v := by
  induction m with
  | nil => simp [assocInsert, assocFind]
  | cons p rest ih =>
    rcases p with ⟨k2, v2⟩
    by_cases hk : k2 = k
    · simp [assocInsert, hk, assocFind]
    · simp [assocInsert, hk, assocFind]
      exact ih

theorem assocFind_assocInsert_ne {α β : Type} [DecidableEq α] (m : List (α × β))
    (k k2 : α) (v : β) (h : k2 ≠ k) :
    assocFind (assocInsert m k v) k2 = assocFind m k2 := by
  induction m with
  | nil =>
    simp [assocInsert, assocFind]
    intro he
    exact absurd he.symm h
  | cons p rest ih =>
    rcases p with ⟨k3, v3⟩
    by_cases hk : k3 = k
    · subst hk
      have h2 : ¬ (k3 = k2) := fun he => h he.symm
      simp [assocInsert, assocFind, h2]
    · by_cases hk2 : k3 = k2
      · subst hk2
        simp [assocInsert, assocFind, hk]
      · simp [assocInsert, hk, assocFind, hk2]
        exact ih

theorem assocFind_assocErase {α β : Type} [DecidableEq α] (m : List (α × β)) (d k : α) :
    assocFind (assocErase m d) k = if k = d then none else assocFind m k := by
  induction m with
  | nil => simp [assocErase, assocFind]
  | cons p rest ih =>
    rcases p with ⟨k2, v2⟩
    by_cases hd : k2 = d
    · subst hd
      have h1 : assocErase ((k2, v2) :: rest) k2 = assocErase rest k2 := by
        simp [assocErase]
      rw [h1, ih]
      by_cases hk : k = k2
      · simp [hk]
      · have h2 : ¬ (k2 = k) := fun he => hk he.symm
        simp [hk, assocFind, h2]
    · have h1 : assocErase ((k2, v2) :: rest) d = (k2, v2) :: assocErase rest d := by
        simp [assocErase, hd]
      rw [h1]
      by_cases hk : k2 = k
      · have h2 : ¬ (k = d) := fun he => hd (hk.trans he)
        simp [assocFind, hk, h2]
      · simp [assocFind, hk, ih]

theorem assocFind_eraseFold {α β : Type} [DecidableEq α] (ds : List α)
    (m : List (α × β)) (k : α) :
    assocFind (ds.foldl assocErase m) k = if k ∈ ds then none else assocFind m k := by
  induction ds generalizing m with
  | nil => simp
  | cons d rest ih =>
    simp only [List.foldl_cons]
    rw [ih]
    rw [assocFind_assocErase]
    by_cases h1 : k ∈ rest
    · simp [h1]
    · by_cases h2 : k = d
      · simp [h1, h2]
      · simp [h1, h2]

/-!
Identity store: ManagementAgentImpl::init, storeData, retrieveData.
The identity file is modelled as an optional record (none = file absent,
unreadable, or carrying a wrong magic number).
-/

/-- Content of the identity file `MA02 <brokerBank> <agentBank> <bootSequence>`. -/
structure StoredIdentity where
  brokerBank : Nat
  agentBank : Nat
  bootSequence : Nat
deriving DecidableEq, Repr

/-- In-memory identity state of the agent (constructor zero-initializes all). -/
structure AgentIdentity where
  requestedBrokerBank : Nat
  requestedAgentBank : Nat
  assignedBrokerBank : Nat
  assignedAgentBank : Nat
  bootSequence : Nat
deriving DecidableEq, Repr

/-- The bootSequence update performed by init: `bootSequence++` on a uint16_t,
then `if ((bootSequence & 0xF000) != 0) bootSequence = 1;`. -/
def initBootSequence (prior : Nat) : Nat :=
  let incremented := (prior + 1) % 65536
  if incremented &&& 0xF000 ≠ 0 then 1 else incremented

/-- ManagementAgentImpl::retrieveData: read banks and bootSequence from the
store file when one is configured and has the right magic. -/
def retrieveData (storeConfigured : Bool) (file : Option StoredIdentity)
    (st : AgentIdentity) : AgentIdentity :=
  if storeConfigured then
    match file with
    | some f =>
      { st with requestedBrokerBank := f.brokerBank,
                requestedAgentBank := f.agentBank,
                bootSequence := f.bootSequence }
    | none => st
  else st

/-- ManagementAgentImpl::storeData: write the requested (or assigned) banks and
the current bootSequence when a store file is configured and writable. -/
def storeData (storeConfigured requested : Bool) (st : AgentIdentity) :
    Option StoredIdentity :=
  if storeConfigured then
    some { brokerBank := if requested then st.requestedBrokerBank else st.assignedBrokerBank,
           agentBank := if requested then st.requestedAgentBank else st.assignedAgentBank,
           bootSequence := st.bootSequence }
  else none

/-- The identity part of ManagementAgentImpl::init: retrieveData, bump the
bootSequence, storeData(true). Returns the in-memory state and the file content
written back. -/
def initIdentity (storeConfigured : Bool) (file : Option StoredIdentity) :
    AgentIdentity × Option StoredIdentity :=
  let st0 : AgentIdentity := ⟨0, 0, 0, 0, 0⟩
  let st1 := retrieveData storeConfigured file st0
  let st2 := { st1 with bootSequence := initBootSequence st1.bootSequence }
  (st2, storeData storeConfigured true st2)

/-!
Connection supervisor backoff: ManagementAgentImpl::ConnectionThread::run.
An attempt either fails (an exception reaches the catch block, e.g. the
connection open failed) or completes its subscription run (after which
`delay = delayMin` executes). After every attempt the loop sleeps for the
current `delay` seconds (in one-second naps).
-/

inductive Attempt where
  | failed
  | completed
deriving DecidableEq, Repr

def delayMin : Nat := 1
def delayMax : Nat := 128
def delayFactor : Nat := 2

/-- Delay update of one loop iteration: a failed attempt runs
`if (delay < delayMax) delay *= delayFactor;`, a completed subscription run
executes `delay = delayMin;`. The returned value is the delay slept afterwards. -/
def stepDelay (delay : Nat) : Attempt → Nat
  | Attempt.failed => if delay < delayMax then delay * delayFactor else delay
  | Attempt.completed => delayMin

/-- The sleep delays observed across a sequence of attempts, starting from the
given current value of `delay` (delayMin at thread start). -/
def runDelays (delay : Nat) : List Attempt → List Nat
  | [] => []
  | a :: rest =>
    let d := stepDelay delay a
    d :: runDelays d rest

theorem stepDelay_min_pow (k : Nat) :
    stepDelay (min (2 ^ k) 128) Attempt.failed = min (2 ^ (k + 1)) 128 := by
  have hpow : 2 ^ (k + 1) = 2 ^ k * 2 := by rw [Nat.pow_succ]
  rcases le_or_lt k 6 with hk | hk
  · have h1 : 2 ^ k ≤ 64 := by
      calc 2 ^ k ≤ 2 ^ 6 := Nat.pow_le_pow_right (by omega) hk
        _ = 64 := by norm_num
    have hmin1 : min (2 ^ k) 128 = 2 ^ k := Nat.min_eq_left (by omega)
    have hmin2 : min (2 ^ (k + 1)) 128 = 2 ^ (k + 1) := Nat.min_eq_left (by omega)
    rw [hmin1, hmin2, hpow]
    simp only [stepDelay, delayMax, delayFactor]
    rw [if_pos (by omega)]
  · have h1 : 128 ≤ 2 ^ k := by
      calc (128 : Nat) = 2 ^ 7 := by norm_num
        _ ≤ 2 ^ k := Nat.pow_le_pow_right (by omega) (by omega)
    have hmin1 : min (2 ^ k) 128 = 128 := Nat.min_eq_right (by omega)
    have hmin2 : min (2 ^ (k + 1)) 128 = 128 := Nat.min_eq_right (by omega)
    rw [hmin1, hmin2]
    simp only [stepDelay, delayMax, delayFactor]
    rw [if_neg (by omega)]

theorem runDelays_replicate_failed (n : Nat) : ∀ k : Nat,
    runDelays (min (2 ^ k) 128) (List.replicate n Attempt.failed)
      = (List.range n).map (fun i => min (2 ^ (k + i + 1)) 128) := by
  induction n with
  | zero => intro k; simp [runDelays]
  | succ n ih =>
    intro k
    rw [List.replicate_succ]
    simp only [runDelays]
    rw [stepDelay_min_pow k, ih (k + 1)]
    have hfun : ((fun i => min (2 ^ (k + i + 1)) 128) ∘ Nat.succ)
        = fun i => min (2 ^ (k + 1 + i + 1)) 128 := by
      funext i
      simp only [Function.comp_apply, Nat.succ_eq_add_one]
      have he : k + (i + 1) + 1 = k + 1 + i + 1 := by omega
      rw [he]
    rw [List.range_succ_eq_map, List.map_cons, List.map_map, hfun]

/-!
Schema registry: registerClass / registerEvent / findOrAddPackage /
addClassLocal. The registry state is the `packages` map: package name to a
class map keyed by SchemaClassKey (name, 16-byte hash). The host-supplied
writeSchemaCall is identified by a numeric tag.
-/

def CLASS_KIND_TABLE : Nat := 1
def CLASS_KIND_EVENT : Nat := 2

structure SchemaClassKey where
  name : String
  hash : List Nat
deriving DecidableEq, Repr

structure SchemaClass where
  kind : Nat
  writeSchemaCall : Nat
deriving DecidableEq, Repr

abbrev ClassMap := List (SchemaClassKey × SchemaClass)
abbrev PackageMap := List (String × ClassMap)

/-- ManagementAgentImpl::findOrAddPackage, restricted to the registry state:
return the map unchanged when the package exists, otherwise add an empty class
map for it (the package-indication send does not alter the registry). -/
def findOrAddPackage (ps : PackageMap) (name : String) : PackageMap :=
  match assocFind ps name with
  | some _ => ps
  | none => ps ++ [(name, [])]

/-- ManagementAgentImpl::addClassLocal on a package's class map: a no-op when
the (name, hash) key is already present, otherwise insert the new class. -/
def addClassLocal (cm : ClassMap) (classKind : Nat) (className : String)
    (md5Sum : List Nat) (schemaCall : Nat) : ClassMap :=
  let key : SchemaClassKey := ⟨className, md5Sum⟩
  match assocFind cm key with
  | some _ => cm
  | none => cm ++ [(key, ⟨classKind, schemaCall⟩)]

/-- Apply an update to the class map of the (first) entry for the package found
by findOrAddPackage. Mirrors mutation through the pIter iterator. -/
def updatePackage (ps : PackageMap) (name : String) (f : ClassMap → ClassMap) :
    PackageMap :=
  match ps with
  | [] => []
  | (n, cm) :: rest =>
    if n = name then (n, f cm) :: rest else (n, cm) :: updatePackage rest name f

/-- ManagementAgentImpl::registerClass, registry-state part. -/
def registerClass (ps : PackageMap) (packageName className : String)
    (md5Sum : List Nat) (schemaCall : Nat) : PackageMap :=
  updatePackage (findOrAddPackage ps packageName) packageName
    (fun cm => addClassLocal cm CLASS_KIND_TABLE className md5Sum schemaCall)

/-- ManagementAgentImpl::registerEvent, registry-state part. -/
def registerEvent (ps : PackageMap) (packageName eventName : String)
    (md5Sum : List Nat) (schemaCall : Nat) : PackageMap :=
  updatePackage (findOrAddPackage ps packageName) packageName
    (fun cm => addClassLocal cm CLASS_KIND_EVENT eventName md5Sum schemaCall)

/-- Whether the registry already holds a (package, name, hash) registration. -/
def hasSchema (ps : PackageMap) (packageName className : String)
    (md5Sum : List Nat) : Bool :=
  match assocFind ps packageName with
  | some cm => (assocFind cm ⟨className, md5Sum⟩).isSome
  | none => false

/-- Generic form of registerClass / registerEvent with the class kind as a
parameter, used to prove facts about both at once. -/
def registerKind (classKind : Nat) (ps : PackageMap) (packageName className : String)
    (md5Sum : List Nat) (schemaCall : Nat) : PackageMap :=
  updatePackage (findOrAddPackage ps packageName) packageName
    (fun cm => addClassLocal cm classKind className md5Sum schemaCall)

theorem registerClass_eq_registerKind (ps : PackageMap) (p n : String) (h : List Nat)
    (c : Nat) : registerClass ps p n h c = registerKind CLASS_KIND_TABLE ps p n h c := rfl

theorem registerEvent_eq_registerKind (ps : PackageMap) (p n : String) (h : List Nat)
    (c : Nat) : registerEvent ps p n h c = registerKind CLASS_KIND_EVENT ps p n h c := rfl

theorem addClassLocal_of_present {cm : ClassMap} {n : String} {h : List Nat}
    (hp : (assocFind cm ⟨n, h⟩).isSome = true) (kind c : Nat) :
    addClassLocal cm kind n h c = cm := by
  unfold addClassLocal
  rcases hfind : assocFind cm (⟨n, h⟩ : SchemaClassKey) with _ | sc
  · rw [hfind] at hp
    simp at hp
  · simp only [hfind]

theorem registerKind_of_present {ps : PackageMap} {p n : String} {h : List Nat}
    (hp : hasSchema ps p n h = true) (kind c : Nat) :
    registerKind kind ps p n h c = ps := by
  unfold hasSchema at hp
  rcases hps : assocFind ps p with _ | cm
  · rw [hps] at hp
    simp at hp
  · rw [hps] at hp
    have hfoa : findOrAddPackage ps p = ps := by
      unfold findOrAddPackage
      rw [hps]
    rw [registerKind, hfoa]
    clear hfoa
    induction ps with
    | nil => simp [assocFind] at hps
    | cons q rest ih =>
      rcases q with ⟨qn, qcm⟩
      by_cases hq : qn = p
      · subst hq
        simp [assocFind] at hps
        subst hps
        simp [updatePackage, addClassLocal_of_present hp]
      · simp [assocFind, hq] at hps
        simp [updatePackage, hq]
        exact ih hps

theorem assocFind_append_right {α β : Type} [DecidableEq α] {m : List (α × β)} {k : α}
    (h : assocFind m k = none) (tail : List (α × β)) :
    assocFind (m ++ tail) k = assocFind tail k := by
  induction m with
  | nil => simp
  | cons p rest ih =>
    rcases p with ⟨k2, v2⟩
    by_cases hk : k2 = k
    · simp [assocFind, hk] at h
    · simp [assocFind, hk] at h ⊢
      exact ih h

theorem assocFind_updatePackage_self (ps : PackageMap) (p : String)
    (f : ClassMap → ClassMap) :
    assocFind (updatePackage ps p f) p = (assocFind ps p).map f := by
  induction ps with
  | nil => simp [updatePackage, assocFind]
  | cons q rest ih =>
    rcases q with ⟨qn, qcm⟩
    by_cases hq : qn = p
    · subst hq
      simp [updatePackage, assocFind]
    · simp [updatePackage, assocFind, hq]
      exact ih

theorem addClassLocal_registers (cm : ClassMap) (kind c : Nat) (n : String)
    (h : List Nat) :
    (assocFind (addClassLocal cm kind n h c) ⟨n, h⟩).isSome = true := by
  unfold addClassLocal
  rcases hfind : assocFind cm (⟨n, h⟩ : SchemaClassKey) with _ | sc
  · simp only [hfind]
    rw [assocFind_append_right hfind]
    simp [assocFind]
  · simp only [hfind]
    simp [hfind]

theorem registerKind_registers (ps : PackageMap) (kind c : Nat) (p n : String)
    (h : List Nat) : hasSchema (registerKind kind ps p n h c) p n h = true := by
  unfold registerKind hasSchema
  rw [assocFind_updatePackage_self]
  rcases hps : assocFind ps p with _ | cm
  · have hfoa : findOrAddPackage ps p = ps ++ [(p, [])] := by
      unfold findOrAddPackage
      rw [hps]
    rw [hfoa, assocFind_append_right hps]
    have hone : assocFind [(p, ([] : ClassMap))] p = some [] := by simp [assocFind]
    rw [hone]
    exact addClassLocal_registers [] kind c n h
  · have hfoa : findOrAddPackage ps p = ps := by
      unfold findOrAddPackage
      rw [hps]
    rw [hfoa, hps]
    exact addClassLocal_registers cm kind c n h

/-- C2 counterexample: already at n = 1 the claimed delay list min(1·2^k, 128)
for k = 0..n-1 (which would be [1]) is wrong: in ConnectionThread::run the
catch block doubles `delay` before the sleep, so the first failed attempt is
followed by a 2-second delay. -/
theorem connection_backoff_first_delay :
    runDelays delayMin [Attempt.failed] = [2] ∧
    runDelays delayMin [Attempt.failed]
      ≠ (List.range 1).map (fun k => min (2 ^ k) 128) := by
  constructor
  · rfl
  · decide

/-- C2 amended: across n consecutive failed connection-open attempts the
supervisor sleeps min(2·2^k, 128) = min(2^(k+1), 128) seconds for k = 0..n-1
(2 s, 4 s, ..., capped at 128 s), because the doubling happens before the
sleep; the delay resets to delayMin = 1 after any attempt whose subscription
run completed. -/
theorem connection_backoff_sequence (n : Nat) :
    runDelays delayMin (List.replicate n Attempt.failed)
      = (List.range n).map (fun k => min (2 ^ (k + 1)) 128) ∧
    ∀ d, stepDelay d Attempt.completed = delayMin := by
  constructor
  · have h := runDelays_replicate_failed n 0
    simpa [delayMin] using h
  · intro d
    rfl

/-- C4 counterexample: with a prior persisted bootSequence of 4095 = 0x0FFF,
whose top nibble is zero, init yields 1 rather than the claimed prior+1 =
4096: the wrap test in init examines the incremented value, not the prior
one. -/
theorem initBootSequence_counterexample :
    4095 &&& 0xF000 = 0 ∧ initBootSequence 4095 = 1 ∧
    initBootSequence 4095 ≠ 4095 + 1 := by
  refine ⟨by decide, by decide, by decide⟩

/-- C4 amended: at startup the new in-memory bootSequence is prior+1 (mod
2^16) when that incremented value has its top nibble zero, else 1; and when a
store file is configured, the persisted identity record immediately reflects
the new in-memory value. -/
theorem init_identity_persists (storeConfigured : Bool) (file : Option StoredIdentity) :
    (initIdentity storeConfigured file).1.bootSequence
      = initBootSequence
          (match storeConfigured, file with
           | true, some f => f.bootSequence
           | _, _ => 0) ∧
    (storeConfigured = true →
      (initIdentity storeConfigured file).2
        = some ⟨(initIdentity storeConfigured file).1.requestedBrokerBank,
                (initIdentity storeConfigured file).1.requestedAgentBank,
                (initIdentity storeConfigured file).1.bootSequence⟩) := by
  cases storeConfigured <;> cases file <;>
    simp [initIdentity, retrieveData, storeData]

/-- Witness for init_identity_persists at a concrete stored file
MA02 5 7 5: the written file carries the new in-memory identity. -/
theorem init_identity_persists_witness :
    true = true ∧
    (initIdentity true (some ⟨5, 7, 5⟩)).2
      = some ⟨(initIdentity true (some ⟨5, 7, 5⟩)).1.requestedBrokerBank,
              (initIdentity true (some ⟨5, 7, 5⟩)).1.requestedAgentBank,
              (initIdentity true (some ⟨5, 7, 5⟩)).1.bootSequence⟩ :=
  ⟨rfl, (init_identity_persists true (some ⟨5, 7, 5⟩)).2 rfl⟩

/-- C7: registerClass and registerEvent invoked again with the same
(package, name, hash) triple as an earlier registration leave the schema
registry state (the package map and its class maps) unchanged; in general any
registration whose triple is already present is a no-op on the registry. -/
theorem registerClass_idempotent (ps : PackageMap) (p n : String) (h : List Nat)
    (c c2 : Nat) :
    registerClass (registerClass ps p n h c) p n h c2 = registerClass ps p n h c ∧
    registerEvent (registerEvent ps p n h c) p n h c2 = registerEvent ps p n h c ∧
    (hasSchema ps p n h = true →
      registerClass ps p n h c = ps ∧ registerEvent ps p n h c = ps) := by
  refine ⟨?_, ?_, fun hp => ⟨?_, ?_⟩⟩
  · rw [registerClass_eq_registerKind ps, registerClass_eq_registerKind]
    exact registerKind_of_present
      (registerKind_registers ps CLASS_KIND_TABLE c p n h) CLASS_KIND_TABLE c2
  · rw [registerEvent_eq_registerKind ps, registerEvent_eq_registerKind]
    exact registerKind_of_present
      (registerKind_registers ps CLASS_KIND_EVENT c p n h) CLASS_KIND_EVENT c2
  · rw [registerClass_eq_registerKind]
    exact registerKind_of_present hp CLASS_KIND_TABLE c
  · rw [registerEvent_eq_registerKind]
    exact registerKind_of_present hp CLASS_KIND_EVENT c

/-- A 16-byte schema digest used by concrete witnesses. -/
def sampleMd5 : List Nat := [0, 1, 2, 3, 4, 5, 6, 7, 8, 9, 10, 11, 12, 13, 14, 15]

/-- Witness for registerClass_idempotent: after registering (P, C, sampleMd5)
once, repeating the registration (with any schemaCall) leaves the registry
unchanged. -/
theorem registerClass_idempotent_witness :
    hasSchema (registerClass [] "P" "C" sampleMd5 3) "P" "C" sampleMd5 = true ∧
    (registerClass (registerClass [] "P" "C" sampleMd5 3) "P" "C" sampleMd5 3
        = registerClass [] "P" "C" sampleMd5 3 ∧
     registerEvent (registerClass [] "P" "C" sampleMd5 3) "P" "C" sampleMd5 3
        = registerClass [] "P" "C" sampleMd5 3) :=
  ⟨by decide,
   (registerClass_idempotent (registerClass [] "P" "C" sampleMd5 3)
      "P" "C" sampleMd5 3 3).2.2 (by decide)⟩

/-!
Object registry: ObjectId, the managed-object capability contract, addObject
(staged insert) and moveNewObjectsLH. ObjectId keeps the fields the agent
uses for identity: the agent-epoch (bootSequence) and the textual v2 key.
-/

structure ObjectId where
  agentEpoch : Nat
  v2Key : String
deriving DecidableEq, Repr

/-- The ManagementObject capability contract (host-supplied, polymorphic in
the source): class identity, dirty bits, lifecycle bits, the been-here flag
used by the publication pass, plus the host-supplied encoders and the method
dispatcher. -/
structure MObj where
  packageName : String
  className : String
  md5Sum : List Nat
  configChanged : Bool
  instChanged : Bool
  forcePublish : Bool
  isDeleted : Bool
  hasInst : Bool
  flags : Bool
  objectId : ObjectId
  v2SelfKey : String
  updatedTime : Bool
  timestamps : VMap
  encodeValues : Bool → Bool → VMap
  doMethod : String → VMap → VMap

abbrev AList := List (ObjectId × MObj)

/-- ManagementObject::isSameClass: same package, class name and schema hash. -/
def isSameClass (a b : MObj) : Bool :=
  a.packageName == b.packageName && a.className == b.className && a.md5Sum == b.md5Sum

theorem isSameClass_refl (o : MObj) : isSameClass o o = true := by
  simp [isSameClass]

/-- ManagementAgentImpl::addObject(object, key, persistent): epoch is 0 for a
persistent object, else the current bootSequence; an empty key means the
object derives its own v2 key; the assigned ObjectId is stored back into the
object and the pair goes into the staged (newManagementObjects) map. -/
def addObject (bootSequence : Nat) (staged : AList) (o : MObj) (key : String)
    (persistent : Bool) : ObjectId × AList :=
  let sequence := if persistent then 0 else bootSequence
  let objectId : ObjectId :=
    ⟨sequence, if key = "" then o.v2SelfKey else key⟩
  (objectId, assocInsert staged objectId { o with objectId := objectId })

/-- ManagementAgentImpl::moveNewObjectsLH: assign every staged pair into the
live map (overwriting on key collision) and clear the staged map. Returns
(new live map, new staged map). -/
def moveNewObjectsLH (live staged : AList) : AList × AList :=
  (staged.foldl (fun m p => assocInsert m p.1 p.2) live, [])

/-- A plain managed object used by concrete witnesses. -/
def sampleObj : MObj :=
  { packageName := "P"
    className := "C"
    md5Sum := sampleMd5
    configChanged := false
    instChanged := false
    forcePublish := false
    isDeleted := false
    hasInst := false
    flags := false
    objectId := ⟨0, ""⟩
    v2SelfKey := "self"
    updatedTime := false
    timestamps := []
    encodeValues := fun _ _ => []
    doMethod := fun _ _ => [] }

/-- C8 counterexample: addObject with persistent = false can return an
ObjectId whose epoch field is zero. The constructor starts bootSequence at 0,
and even init can leave it 0: a stored prior of 65535 increments (uint16_t)
to 0, whose top nibble is zero, so init keeps 0. An object added in such a
state with persistent = false gets epoch 0, contradicting the claimed
nonzero epoch. -/
theorem addObject_epoch_counterexample :
    initBootSequence 65535 = 0 ∧
    (addObject (initBootSequence 65535) [] sampleObj "k1" false).1.agentEpoch = 0 := by
  refine ⟨by decide, ?_⟩
  rfl

/-- C8 amended: the id's epoch field is 0 when persistent = true, and equals
the current bootSequence when persistent = false; in particular it is nonzero
whenever the current bootSequence is nonzero. -/
theorem addObject_epoch (bootSequence : Nat) (staged : AList) (o : MObj)
    (key : String) (persistent : Bool) :
    ((addObject bootSequence staged o key persistent).1.agentEpoch
      = if persistent then 0 else bootSequence) ∧
    (persistent = false → bootSequence ≠ 0 →
      (addObject bootSequence staged o key persistent).1.agentEpoch ≠ 0) := by
  cases persistent <;> simp [addObject]

/-- Witness for addObject_epoch: with bootSequence 6 a non-persistent object
receives epoch 6 ≠ 0. -/
theorem addObject_epoch_witness :
    (6 : Nat) ≠ 0 ∧
    (addObject 6 [] sampleObj "k1" false).1.agentEpoch ≠ 0 :=
  ⟨by decide, (addObject_epoch 6 [] sampleObj "k1" false).2 rfl (by decide)⟩

/-- C10: moveNewObjectsLH leaves the staged map empty, every staged pair ends
up in the live map (a staged entry overwrites a live entry with the same
ObjectId), and keys absent from the staged map keep their previous live
binding. -/
theorem moveNewObjectsLH_spec (live staged : AList)
    (hnd : (staged.map Prod.fst).Nodup) :
    (moveNewObjectsLH live staged).2 = [] ∧
    (∀ k v, assocFind staged k = some v →
      assocFind (moveNewObjectsLH live staged).1 k = some v) ∧
    (∀ k, assocFind staged k = none →
      assocFind (moveNewObjectsLH live staged).1 k = assocFind live k) := by
  refine ⟨rfl, ?_⟩
  unfold moveNewObjectsLH
  simp only
  induction staged generalizing live with
  | nil =>
    refine ⟨?_, ?_⟩
    · intro k v h
      simp [assocFind] at h
    · intro k _
      simp
  | cons p rest ih =>
    rcases p with ⟨k0, v0⟩
    simp only [List.map_cons, List.nodup_cons] at hnd
    have hrest := ih (assocInsert live k0 v0) hnd.2
    refine ⟨?_, ?_⟩
    · intro k v h
      by_cases hk : k0 = k
      · subst hk
        simp [assocFind] at h
        subst h
        have hnone : assocFind rest k0 = none := by
          rcases hfind : assocFind rest k0 with _ | w
          · rfl
          · exact absurd (List.mem_map.mpr ⟨(k0, w), mem_of_assocFind_eq_some hfind, rfl⟩)
              hnd.1
        simp only [List.foldl_cons]
        rw [hrest.2 k0 hnone]
        exact assocFind_assocInsert_self live k0 v0
      · simp [assocFind, hk] at h
        simp only [List.foldl_cons]
        exact hrest.1 k v h
    · intro k h
      by_cases hk : k0 = k
      · subst hk
        simp [assocFind] at h
      · simp [assocFind, hk] at h
        simp only [List.foldl_cons]
        rw [hrest.2 k h]
        exact assocFind_assocInsert_ne live k0 k v0 (fun he => hk he.symm)

/-- Witness for moveNewObjectsLH_spec: a staged object with the same id as a
live one wins, a fresh staged id is added, untouched live ids survive, and
the staged map is cleared. -/
theorem moveNewObjectsLH_spec_witness :
    (([(⟨1, "a"⟩, sampleObj), (⟨2, "b"⟩, sampleObj)] :
        AList).map Prod.fst).Nodup ∧
    (moveNewObjectsLH [(⟨1, "a"⟩, { sampleObj with isDeleted := true })]
        [(⟨1, "a"⟩, sampleObj), (⟨2, "b"⟩, sampleObj)]).2 = [] :=
  ⟨by decide,
   (moveNewObjectsLH_spec [(⟨1, "a"⟩, { sampleObj with isDeleted := true })]
      [(⟨1, "a"⟩, sampleObj), (⟨2, "b"⟩, sampleObj)] (by decide)).1⟩

/-!
Method invocation: ManagementAgentImpl::invokeMethodRequest. The request body
arrives already decoded by MapCodec as a Variant map. Conversions that the
source performs on Variant values (asMap, getString) throw InvalidConversion
on a type mismatch and are modelled with Except.
-/

def STATUS_OK : Nat := 0
def STATUS_UNKNOWN_OBJECT : Nat := 1
def STATUS_UNKNOWN_METHOD : Nat := 2
def STATUS_NOT_IMPLEMENTED : Nat := 3
def STATUS_PARAMETER_INVALID : Nat := 4
def STATUS_EXCEPTION : Nat := 7

/-- Modelled from the spec: Manageable::StatusText (qpid/management/Manageable,
outside src/) maps each status code to its fixed descriptive text. -/
def statusText (code : Nat) : String :=
  if code = 0 then "OK"
  else if code = 1 then "UnknownObject"
  else if code = 2 then "UnknownMethod"
  else if code = 3 then "NotImplemented"
  else if code = 4 then "InvalidParameter"
  else if code = 7 then "Exception"
  else "??"

/-- Variant::asMap: succeeds only on a map value. -/
def asMapE : QVal → Except String VMap
  | QVal.vmap m => Except.ok m
  | _ => Except.error "not a map"

/-- Variant::getString: succeeds only on a string value. -/
def getStringE : QVal → Except String String
  | QVal.str s => Except.ok s
  | _ => Except.error "not a string"

/-- Modelled from the spec: Variant::asUint32 as used on
callMap["_status_code"] (qpid/types/Variant, outside src/): a void value (the
default-constructed Variant produced by operator[] on a missing key) converts
to 0, so the status check after a skipped doMethod call reads status 0. -/
def asUint32E : QVal → Except String Nat
  | QVal.vnull => Except.ok 0
  | QVal.num n => Except.ok n
  | _ => Except.error "cannot convert to uint32"

/-- Modelled from the spec: the ObjectId(Variant::Map) constructor
(qpid/management/ManagementObject, outside src/) reads the agent epoch and the
textual object name out of the decoded `_object_id` map. -/
def objectIdOfMap (m : VMap) : ObjectId :=
  { agentEpoch :=
      match assocFind m "_agent_epoch" with
      | some (QVal.num n) => n
      | _ => 0
    v2Key :=
      match assocFind m "_object_name" with
      | some (QVal.str s) => s
      | _ => "" }

/-- The `(_status_code, _status_text)` pair written into `_values`. -/
def statusPair (code : Nat) : VMap :=
  [("_status_code", QVal.num code), ("_status_text", QVal.str (statusText code))]

/-- The copy loop over callMap that skips the status keys. -/
def stripStatus (m : VMap) : VMap :=
  m.filter fun p => !(decide (p.1 = "_status_code")) && !(decide (p.1 = "_status_text"))

/-- The response assembled by invokeMethodRequest: the opcode header, the
encoded outMap, and a record of which doMethod call (if any) was dispatched
into a managed object. -/
structure MethodResponse where
  opcode : String
  outMap : VMap
  invoked : Option (ObjectId × String)

/-- Response built in the catch(InvalidConversion) handler: outMap is cleared
and refilled with the EXCEPTION status pair. -/
def exceptionResponse (text : String) (invoked : Option (ObjectId × String)) :
    MethodResponse :=
  { opcode := "_exception"
    outMap := [("_values", QVal.vmap
      [("_status_code", QVal.num STATUS_EXCEPTION), ("_status_text", QVal.str text)])]
    invoked := invoked }

/-- The optional `_arguments` element: absent means an empty input map, a
present non-map value is an InvalidConversion. -/
def argsOfMap (inMap : VMap) : Except String VMap :=
  match assocFind inMap "_arguments" with
  | some a => asMapE a
  | none => Except.ok []

/-- ManagementAgentImpl::invokeMethodRequest over the decoded request body. -/
def invokeMethodRequest (live : AList) (inMap : VMap) : MethodResponse :=
  match assocFind inMap "_object_id", assocFind inMap "_method_name" with
  | some oidv, some midv =>
    (match asMapE oidv, getStringE midv, argsOfMap inMap with
     | Except.ok oidm, Except.ok methodName, Except.ok inArgs =>
       let objId := objectIdOfMap oidm
       let found := assocFind live objId
       let unknown : Bool :=
         match found with
         | none => true
         | some obj => obj.isDeleted
       let callMap : VMap :=
         match found with
         | none => []
         | some obj => if obj.isDeleted then [] else obj.doMethod methodName inArgs
       let invoked : Option (ObjectId × String) :=
         match found with
         | none => none
         | some obj => if obj.isDeleted then none else some (objId, methodName)
       match asUint32E ((assocFind callMap "_status_code").getD QVal.vnull) with
       | Except.ok code =>
         if code = 0 then
           { opcode := if unknown then "_exception" else "_method_response"
             outMap := [("_values", QVal.vmap
                           (if unknown then statusPair STATUS_UNKNOWN_OBJECT else [])),
                        ("_arguments", QVal.vmap (stripStatus callMap))]
             invoked := invoked }
         else
           { opcode := "_exception"
             outMap := [("_values", QVal.vmap
               [("_status_code", (assocFind callMap "_status_code").getD QVal.vnull),
                ("_status_text", (assocFind callMap "_status_text").getD QVal.vnull)])]
             invoked := invoked }
       | Except.error e => exceptionResponse e invoked
     | Except.error e, _, _ => exceptionResponse e none
     | Except.ok _, Except.error e, _ => exceptionResponse e none
     | Except.ok _, Except.ok _, Except.error e => exceptionResponse e none)
  | _, _ =>
    { opcode := "_exception"
      outMap := [("_values", QVal.vmap (statusPair STATUS_PARAMETER_INVALID))]
      invoked := none }

/-- Whether the optional `_arguments` element is absent or a map. -/
def argsOk (inMap : VMap) : Bool :=
  match assocFind inMap "_arguments" with
  | none => true
  | some (QVal.vmap _) => true
  | some _ => false

theorem argsOfMap_of_argsOk {inMap : VMap} (h : argsOk inMap = true) :
    ∃ args, argsOfMap inMap = Except.ok args := by
  unfold argsOk at h
  unfold argsOfMap
  rcases hfind : assocFind inMap "_arguments" with _ | a
  · exact ⟨[], rfl⟩
  · rw [hfind] at h
    cases a with
    | vmap m => exact ⟨m, rfl⟩
    | vnull => simp at h
    | num n => simp at h
    | str s => simp at h
    | vlist l => simp at h

/-- C3: a method request whose decoded _object_id is not a key of the live
object map, or whose target object has isDeleted = true, is answered with
opcode _exception whose _values map carries _status_code = UNKNOWN_OBJECT and
the corresponding status text. -/
theorem invokeMethodRequest_unknown_object (live : AList) (inMap : VMap)
    (oidm : VMap) (mname : String)
    (h1 : assocFind inMap "_object_id" = some (QVal.vmap oidm))
    (h2 : assocFind inMap "_method_name" = some (QVal.str mname))
    (h3 : argsOk inMap = true)
    (h4 : (match assocFind live (objectIdOfMap oidm) with
           | none => true
           | some o => o.isDeleted) = true) :
    (invokeMethodRequest live inMap).opcode = "_exception" ∧
    ∃ vs, assocFind (invokeMethodRequest live inMap).outMap "_values"
            = some (QVal.vmap vs) ∧
      assocFind vs "_status_code" = some (QVal.num STATUS_UNKNOWN_OBJECT) ∧
      assocFind vs "_status_text"
        = some (QVal.str (statusText STATUS_UNKNOWN_OBJECT)) := by
  obtain ⟨args, hargs⟩ := argsOfMap_of_argsOk h3
  unfold invokeMethodRequest
  simp only [h1, h2, asMapE, getStringE, hargs]
  rcases hfound : assocFind live (objectIdOfMap oidm) with _ | o
  · simp only [hfound]
    exact ⟨rfl, statusPair STATUS_UNKNOWN_OBJECT, rfl, rfl, rfl⟩
  · rw [hfound] at h4
    simp only at h4
    simp only [hfound, h4, if_true]
    exact ⟨rfl, statusPair STATUS_UNKNOWN_OBJECT, rfl, rfl, rfl⟩

/-- A method request naming an object id that is absent from the live map. -/
def sampleMethodQuery : VMap :=
  [("_object_id", QVal.vmap []), ("_method_name", QVal.str "ping")]

/-- Witness for invokeMethodRequest_unknown_object: an empty live map and a
request for object id (0, "") yield the UNKNOWN_OBJECT exception. -/
theorem invokeMethodRequest_unknown_object_witness :
    argsOk sampleMethodQuery = true ∧
    ((invokeMethodRequest [] sampleMethodQuery).opcode = "_exception" ∧
     ∃ vs, assocFind (invokeMethodRequest [] sampleMethodQuery).outMap "_values"
             = some (QVal.vmap vs) ∧
       assocFind vs "_status_code" = some (QVal.num STATUS_UNKNOWN_OBJECT) ∧
       assocFind vs "_status_text"
         = some (QVal.str (statusText STATUS_UNKNOWN_OBJECT))) :=
  ⟨rfl, invokeMethodRequest_unknown_object [] sampleMethodQuery [] "ping"
    rfl rfl rfl rfl⟩

/-- C9: a method request lacking _object_id or _method_name is answered with
opcode _exception carrying the PARAMETER_INVALID status pair in _values, and
no doMethod is dispatched into any managed object (the live map is never
written by invokeMethodRequest). -/
theorem invokeMethodRequest_missing_fields (live : AList) (inMap : VMap)
    (h : assocFind inMap "_object_id" = none ∨
         assocFind inMap "_method_name" = none) :
    (invokeMethodRequest live inMap).opcode = "_exception" ∧
    assocFind (invokeMethodRequest live inMap).outMap "_values"
      = some (QVal.vmap (statusPair STATUS_PARAMETER_INVALID)) ∧
    (invokeMethodRequest live inMap).invoked = none := by
  unfold invokeMethodRequest
  rcases h with h | h
  · rcases hm : assocFind inMap "_method_name" with _ | mv <;>
      simp [h, hm, assocFind]
  · rcases ho : assocFind inMap "_object_id" with _ | ov <;>
      simp [h, ho, assocFind]

/-- Witness for invokeMethodRequest_missing_fields: an empty request body. -/
theorem invokeMethodRequest_missing_fields_witness :
    assocFind ([] : VMap) "_object_id" = none ∧
    ((invokeMethodRequest [] []).opcode = "_exception" ∧
     assocFind (invokeMethodRequest [] []).outMap "_values"
       = some (QVal.vmap (statusPair STATUS_PARAMETER_INVALID)) ∧
     (invokeMethodRequest [] []).invoked = none) :=
  ⟨rfl, invokeMethodRequest_missing_fields [] [] (Or.inl rfl)⟩

/-!
Query handler: ManagementAgentImpl::handleGetQuery. The handler first merges
the staged objects (moveNewObjectsLH), validates `_what`, then answers either
a single-object query (by `_object_id`) or a class-based query (via
`_schema_id`), each response being one list-encoded message whose headers may
carry the `partial` marker.
-/

/-- ObjectId::mapEncode used for the `_object_id` element of responses. -/
def mapEncodeObjectId (oid : ObjectId) : QVal :=
  QVal.vmap [("_agent_epoch", QVal.num oid.agentEpoch),
             ("_object_name", QVal.str oid.v2Key)]

/-- ManagementAgentImpl::mapEncodeSchemaId. -/
def mapEncodeSchemaId (pname cname : String) (md5Sum : List Nat) : QVal :=
  QVal.vmap [("_package_name", QVal.str pname),
             ("_class_name", QVal.str cname),
             ("_hash", QVal.vlist (md5Sum.map QVal.num))]

/-- One message sent while answering a query: either the `_exception` reply or
a `_query_response` whose header may carry `partial` and whose body is a
list. -/
inductive GetQueryMsg where
  | exception (text : String)
  | response (hasPartialHdr : Bool) (elems : List QVal)

/-- The per-object map built by the query paths: `_values` encoded with both
properties and statistics, `_object_id`, the object's timestamps and
`_schema_id`. -/
def queryEntry (oid : ObjectId) (o : MObj) : QVal :=
  QVal.vmap ([("_values", QVal.vmap (o.encodeValues true true)),
              ("_object_id", mapEncodeObjectId oid)]
             ++ o.timestamps
             ++ [("_schema_id", mapEncodeSchemaId o.packageName o.className o.md5Sum)])

/-- The `_class_name` filter extracted from an optional `_schema_id` map. -/
def queryClassName (inMap : VMap) : String :=
  match assocFind inMap "_schema_id" with
  | some (QVal.vmap sm) =>
    (match assocFind sm "_class_name" with
     | some (QVal.str c) => c
     | _ => "")
  | _ => ""

/-- The `_package_name` filter extracted from an optional `_schema_id` map. -/
def queryPackageName (inMap : VMap) : String :=
  match assocFind inMap "_schema_id" with
  | some (QVal.vmap sm) =>
    (match assocFind sm "_package_name" with
     | some (QVal.str c) => c
     | _ => "")
  | _ => ""

/-- The class-based match test of the query loop. -/
def classMatches (className packageName : String) (o : MObj) : Bool :=
  o.className == className && (packageName == "" || o.packageName == packageName)

/-- ManagementAgentImpl::handleGetQuery: the sequence of messages sent back
for one query, in order. `live` and `staged` are the agent's object maps
before the initial moveNewObjectsLH. -/
def handleGetQuery (live staged : AList) (inMap : VMap) : List GetQueryMsg :=
  let m := (moveNewObjectsLH live staged).1
  match assocFind inMap "_what" with
  | none => [GetQueryMsg.exception "_what element missing in Query"]
  | some w =>
    match w with
    | QVal.str s =>
      if s = "OBJECT" then
        let className := queryClassName inMap
        let packageName := queryPackageName inMap
        match assocFind inMap "_object_id" with
        | some (QVal.vmap oidm) =>
          let objId := objectIdOfMap oidm
          (match assocFind m objId with
           | some o => [GetQueryMsg.response false [queryEntry objId o]]
           | none => [GetQueryMsg.response false []])
        | _ =>
          (m.filterMap fun p =>
            if classMatches className packageName p.2 then
              some (GetQueryMsg.response true [queryEntry p.1 p.2])
            else none)
          ++ [GetQueryMsg.response false []]
      else [GetQueryMsg.exception ("Query for _what => " ++ s ++ " not supported")]
    | _ => [GetQueryMsg.exception "_what element is not a string"]

/-- The empty non-partial query response, the command-complete marker. -/
def isCommandComplete : GetQueryMsg → Bool
  | GetQueryMsg.response b elems => !b && elems.isEmpty
  | _ => false

/-- Whether a response stream ends with the command-complete marker. -/
def streamTerminated (msgs : List GetQueryMsg) : Bool :=
  match msgs.getLast? with
  | some mb => isCommandComplete mb
  | none => false

/-- Classify the `_object_id` branch of a query against a merged map: none
when the query carries no `_object_id` map, some none when it does but the id
is not live, some (some (id, obj)) when the lookup succeeds. -/
def idQueryLookup (m : AList) (inMap : VMap) : Option (Option (ObjectId × MObj)) :=
  match assocFind inMap "_object_id" with
  | some (QVal.vmap oidm) =>
    let objId := objectIdOfMap oidm
    some ((assocFind m objId).map fun o => (objId, o))
  | _ => none

def sampleOid : ObjectId := ⟨6, "k1"⟩

def sampleLive : AList := [(sampleOid, { sampleObj with objectId := sampleOid })]

/-- A query by object id that finds the sample object. -/
def sampleIdQuery : VMap :=
  [("_what", QVal.str "OBJECT"),
   ("_object_id", QVal.vmap [("_agent_epoch", QVal.num 6),
                             ("_object_name", QVal.str "k1")])]

/-- C1 counterexample: a `_query_request` by `_object_id` that finds the
object is answered with exactly one non-empty (single-element, non-partial)
message and the handler returns without sending the final empty list, so the
stream is not terminated by the command-complete marker. -/
theorem handleGetQuery_found_id_unterminated :
    handleGetQuery sampleLive [] sampleIdQuery
      = [GetQueryMsg.response false
          [queryEntry sampleOid { sampleObj with objectId := sampleOid }]] ∧
    streamTerminated (handleGetQuery sampleLive [] sampleIdQuery) = false := by
  exact ⟨rfl, rfl⟩

theorem getLast_append_single {α : Type} (xs : List α) (x : α) :
    (xs ++ [x]).getLast? = some x := by
  exact List.getLast?_concat xs

/-- C1 amended: for every `_query_request` with `_what = "OBJECT"`, the
response stream ends with the empty non-partial command-complete message in
every case except a query by `_object_id` that finds the object; that case is
answered with exactly one single-element non-partial response and the handler
returns without sending the terminating empty list. -/
theorem handleGetQuery_termination (live staged : AList) (inMap : VMap)
    (hwhat : assocFind inMap "_what" = some (QVal.str "OBJECT")) :
    (∀ oid o,
      idQueryLookup (moveNewObjectsLH live staged).1 inMap = some (some (oid, o)) →
      handleGetQuery live staged inMap
        = [GetQueryMsg.response false [queryEntry oid o]]) ∧
    (idQueryLookup (moveNewObjectsLH live staged).1 inMap = some none →
      streamTerminated (handleGetQuery live staged inMap) = true) ∧
    (idQueryLookup (moveNewObjectsLH live staged).1 inMap = none →
      streamTerminated (handleGetQuery live staged inMap) = true) := by
  unfold handleGetQuery idQueryLookup
  simp only [hwhat, eq_self_iff_true, if_true]
  refine ⟨?_, ?_, ?_⟩
  · intro oid o hid
    rcases hoid : assocFind inMap "_object_id" with _ | v
    · rw [hoid] at hid
      simp at hid
    · cases v with
      | vmap oidm =>
        rw [hoid] at hid
        simp only [Option.some.injEq] at hid
        rcases hfind : assocFind (moveNewObjectsLH live staged).1 (objectIdOfMap oidm)
          with _ | o2
        · rw [hfind] at hid
          simp at hid
        · rw [hfind] at hid
          simp only [Option.map_some', Option.some.injEq, Prod.mk.injEq] at hid
          obtain ⟨h1, h2⟩ := hid
          subst h1
          subst h2
          simp only [hoid, hfind]
      | vnull => rw [hoid] at hid; simp at hid
      | num n => rw [hoid] at hid; simp at hid
      | str s => rw [hoid] at hid; simp at hid
      | vlist l => rw [hoid] at hid; simp at hid
  · intro hid
    rcases hoid : assocFind inMap "_object_id" with _ | v
    · rw [hoid] at hid
      simp at hid
    · cases v with
      | vmap oidm =>
        rw [hoid] at hid
        simp only [Option.some.injEq, Option.map_eq_none'] at hid
        simp only [hoid, hid]
        rfl
      | vnull => rw [hoid] at hid; simp at hid
      | num n => rw [hoid] at hid; simp at hid
      | str s => rw [hoid] at hid; simp at hid
      | vlist l => rw [hoid] at hid; simp at hid
  · intro hid
    rcases hoid : assocFind inMap "_object_id" with _ | v
    · simp only [hoid]
      unfold streamTerminated
      rw [getLast_append_single]
      rfl
    · cases v with
      | vmap oidm => rw [hoid] at hid; simp at hid
      | vnull =>
        simp only [hoid]
        unfold streamTerminated
        rw [getLast_append_single]
        rfl
      | num n =>
        simp only [hoid]
        unfold streamTerminated
        rw [getLast_append_single]
        rfl
      | str s =>
        simp only [hoid]
        unfold streamTerminated
        rw [getLast_append_single]
        rfl
      | vlist l =>
        simp only [hoid]
        unfold streamTerminated
        rw [getLast_append_single]
        rfl

/-- A class-based query for class C. -/
def sampleClassQuery : VMap :=
  [("_what", QVal.str "OBJECT"),
   ("_schema_id", QVal.vmap [("_class_name", QVal.str "C")])]

/-- Witness for handleGetQuery_termination: a class query (no `_object_id`)
whose response stream ends with the command-complete marker. -/
theorem handleGetQuery_termination_witness :
    assocFind sampleClassQuery "_what" = some (QVal.str "OBJECT") ∧
    idQueryLookup (moveNewObjectsLH sampleLive []).1 sampleClassQuery = none ∧
    streamTerminated (handleGetQuery sampleLive [] sampleClassQuery) = true :=
  ⟨rfl, rfl,
   (handleGetQuery_termination sampleLive [] sampleClassQuery rfl).2.2 rfl⟩

/-!
Publication engine: ManagementAgentImpl::periodicProcessing. The pass merges
the staged objects, clears the been-here flag (and applies the
clientWasAdded force-publish) on every object, walks the map grouping by
class, emits one data indication per group, reaps the objects observed
deleted and finishes with a heartbeat. The two-level iteration with in-place
flag mutation is modelled by a fuel-indexed recursion over the association
list (the fuel is instantiated with the list length, which the inner update
preserves).
-/

/-- `setUpdateTime` applied when the object has config or inst changes. -/
def setUpdateTimeIfChanged (o : MObj) : MObj :=
  if o.configChanged || o.instChanged then { o with updatedTime := true } else o

/-- The map entry built for one published object: `_object_id`, `_schema_id`,
timestamps and `_values` encoded under the send_props / send_stats flags. -/
def dataEntry (o : MObj) (sendProps sendStats : Bool) : QVal :=
  QVal.vmap ([("_object_id", mapEncodeObjectId o.objectId),
              ("_schema_id", mapEncodeSchemaId o.packageName o.className o.md5Sum)]
             ++ o.timestamps
             ++ [("_values", QVal.vmap (o.encodeValues sendProps sendStats))])

/-- The body of the inner publication loop for one object: when the object is
of the base object's class and not yet flagged, it is flagged, its update
time refreshed if dirty, an entry is emitted when send_props or send_stats
holds, it is scheduled for deletion when isDeleted, and forcePublish is
cleared. Returns the updated object, the emitted entry (if any) and whether
the object is scheduled for reaping. -/
def visitObj (base o : MObj) : MObj × Option QVal × Bool :=
  if isSameClass base o && !o.flags then
    let o1 := setUpdateTimeIfChanged { o with flags := true }
    let sendProps := o.configChanged || o.forcePublish || o.isDeleted
    let sendStats := o.hasInst && (o.instChanged || o.forcePublish)
    let entry :=
      if sendStats || sendProps then some (dataEntry o sendProps sendStats) else none
    ({ o1 with forcePublish := false }, entry, o.isDeleted)
  else (o, none, false)

/-- The outer loop's skip test: an object needing a sent message. -/
def needsEmit (o : MObj) : Bool :=
  o.configChanged || o.instChanged || o.forcePublish || o.isDeleted

/-- The inner loop's updates over the remainder of the map. -/
def innerUpd (base : MObj) (l : AList) : AList :=
  l.map fun p => (p.1, (visitObj base p.2).1)

/-- The entries the inner loop appends to the group's list. -/
def innerEntries (base : MObj) (l : AList) : List QVal :=
  l.filterMap fun p => (visitObj base p.2).2.1

/-- The ids the inner loop appends to the delete list. -/
def innerDels (base : MObj) (l : AList) : List ObjectId :=
  (l.filter fun p => (visitObj base p.2).2.2).map Prod.fst

/-- The grouped publication walk. Returns the updated map, the per-group
entry lists (one data indication each; the list codec encodes even an empty
list to a non-empty string, so a started group always sends) and the delete
list. The fuel dominates the list length. -/
def outerLoopFuel : Nat → AList → AList × List (List QVal) × List ObjectId
  | 0, _ => ([], [], [])
  | _ + 1, [] => ([], [], [])
  | fuel + 1, (k, b) :: rest =>
    if b.flags || !needsEmit b then
      let r := outerLoopFuel fuel rest
      ((k, b) :: r.1, r.2)
    else
      let v := visitObj b b
      let groupEntries := (match v.2.1 with | some e => [e] | none => []) ++ innerEntries b rest
      let groupDels := (if v.2.2 then [k] else []) ++ innerDels b rest
      let r := outerLoopFuel fuel (innerUpd b rest)
      ((k, v.1) :: r.1, groupEntries :: r.2.1, groupDels ++ r.2.2)

def outerLoop (l : AList) : AList × List (List QVal) × List ObjectId :=
  outerLoopFuel l.length l

/-- The reap step at the end of the pass: destroy and erase every scheduled
object, iterating the delete list in reverse. -/
def reapDeleted (m : AList) (dels : List ObjectId) : AList :=
  dels.reverse.foldl assocErase m

/-- The per-object preparation at the start of the pass: clear the been-here
flag; when a client was added since the last pass, force-publish. -/
def prepObject (clientWasAdded : Bool) (o : MObj) : MObj :=
  { o with flags := false, forcePublish := o.forcePublish || clientWasAdded }

/-- The state visible to the publication engine. -/
structure AgentPubState where
  connected : Bool
  clientWasAdded : Bool
  managementObjects : AList
  newManagementObjects : AList

/-- The map the pass walks: staged objects merged in, every object prepared. -/
def preparedMap (s : AgentPubState) : AList :=
  ((moveNewObjectsLH s.managementObjects s.newManagementObjects).1).map
    fun p => (p.1, prepObject s.clientWasAdded p.2)

/-- Messages emitted by one publication pass. -/
inductive PubMsg where
  | dataInd (elems : List QVal)
  | heartbeat

/-- ManagementAgentImpl::periodicProcessing: returns the state after the pass
and the messages sent. When not connected, the pass returns at once. -/
def periodicProcessing (s : AgentPubState) : AgentPubState × List PubMsg :=
  if s.connected = false then (s, [])
  else
    let prepped := preparedMap s
    let r := outerLoop prepped
    let finalMap := reapDeleted r.1 r.2.2
    ({ s with managementObjects := finalMap,
              newManagementObjects := [],
              clientWasAdded := false },
     r.2.1.map PubMsg.dataInd ++ [PubMsg.heartbeat])

/-- C5: for every object visited within a class group (same class as the base
object and not yet flagged), an entry is appended to the group's list exactly
when send_props = configChanged || forcePublish || isDeleted or
send_stats = hasInst && (instChanged || forcePublish) holds, and forcePublish
is cleared on the object afterwards. -/
theorem visitObj_emission (base o : MObj)
    (hsame : isSameClass base o = true) (hflag : o.flags = false) :
    ((visitObj base o).2.1.isSome
      = ((o.configChanged || o.forcePublish || o.isDeleted)
         || (o.hasInst && (o.instChanged || o.forcePublish)))) ∧
    ((visitObj base o).1).forcePublish = false := by
  unfold visitObj
  rw [hsame, hflag]
  simp only [Bool.not_false, Bool.and_true, if_true]
  constructor
  · cases hp : (o.configChanged || o.forcePublish || o.isDeleted) <;>
      cases hs : (o.hasInst && (o.instChanged || o.forcePublish)) <;>
      simp [hp, hs]
  · trivial

/-- Witness for visitObj_emission: a force-published object of the sample
class is emitted and its forcePublish bit is cleared. -/
theorem visitObj_emission_witness :
    isSameClass { sampleObj with forcePublish := true }
        { sampleObj with forcePublish := true } = true ∧
    ({ sampleObj with forcePublish := true } : MObj).flags = false ∧
    ((visitObj { sampleObj with forcePublish := true }
        { sampleObj with forcePublish := true }).2.1.isSome
      = ((({ sampleObj with forcePublish := true } : MObj).configChanged
          || ({ sampleObj with forcePublish := true } : MObj).forcePublish
          || ({ sampleObj with forcePublish := true } : MObj).isDeleted)
         || (({ sampleObj with forcePublish := true } : MObj).hasInst
             && (({ sampleObj with forcePublish := true } : MObj).instChanged
                 || ({ sampleObj with forcePublish := true } : MObj).forcePublish))) ∧
     ((visitObj { sampleObj with forcePublish := true }
        { sampleObj with forcePublish := true }).1).forcePublish = false) :=
  ⟨by decide, rfl,
   visitObj_emission { sampleObj with forcePublish := true }
     { sampleObj with forcePublish := true } (by decide) rfl⟩

theorem visitObj_fst_isDeleted (b o : MObj) :
    ((visitObj b o).1).isDeleted = o.isDeleted := by
  unfold visitObj
  split
  · unfold setUpdateTimeIfChanged
    split <;> rfl
  · rfl

theorem visitObj_not_visited {b o : MObj} (h : (isSameClass b o && !o.flags) = false) :
    visitObj b o = (o, none, false) := by
  unfold visitObj
  rw [h]
  simp

theorem visitObj_del_isDeleted {b o : MObj} (h : (visitObj b o).2.2 = true) :
    o.isDeleted = true := by
  unfold visitObj at h
  split at h
  · exact h
  · simp at h

theorem visitObj_visited_del {b o : MObj} (h : (isSameClass b o && !o.flags) = true) :
    (visitObj b o).2.2 = o.isDeleted := by
  unfold visitObj
  rw [h]
  simp

theorem innerUpd_cons (b : MObj) (k0 : ObjectId) (o0 : MObj) (rest : AList) :
    innerUpd b ((k0, o0) :: rest) = (k0, (visitObj b o0).1) :: innerUpd b rest := rfl

theorem innerUpd_length (b : MObj) (l : AList) : (innerUpd b l).length = l.length := by
  unfold innerUpd
  exact List.length_map l _

theorem assocFind_innerUpd (b : MObj) (l : AList) (k : ObjectId) :
    assocFind (innerUpd b l) k = (assocFind l k).map fun o => (visitObj b o).1 := by
  induction l with
  | nil => rfl
  | cons p rest ih =>
    rcases p with ⟨k0, o0⟩
    rw [innerUpd_cons]
    by_cases hk : k0 = k
    · simp [assocFind, hk]
    · simp only [assocFind, hk, if_neg]
      exact ih

theorem mem_innerUpd {b : MObj} {l : AList} {k : ObjectId} {o2 : MObj}
    (h : (k, o2) ∈ innerUpd b l) : ∃ o, (k, o) ∈ l ∧ o2 = (visitObj b o).1 := by
  rcases List.mem_map.mp h with ⟨p, hp, he⟩
  rcases p with ⟨p1, p2⟩
  simp only [Prod.mk.injEq] at he
  obtain ⟨h1, h2⟩ := he
  subst h1
  subst h2
  exact ⟨p2, hp, rfl⟩

theorem innerUpd_mem {b : MObj} {l : AList} {k : ObjectId} {o : MObj}
    (h : (k, o) ∈ l) : (k, (visitObj b o).1) ∈ innerUpd b l :=
  List.mem_map.mpr ⟨(k, o), h, rfl⟩

theorem mem_innerDels {b : MObj} {l : AList} {k : ObjectId} :
    k ∈ innerDels b l ↔ ∃ o, (k, o) ∈ l ∧ (visitObj b o).2.2 = true := by
  unfold innerDels
  constructor
  · intro h
    rcases List.mem_map.mp h with ⟨p, hp, hk⟩
    rcases List.mem_filter.mp hp with ⟨hmem, hflt⟩
    rcases p with ⟨p1, p2⟩
    simp only at hk
    subst hk
    exact ⟨p2, hmem, by simpa using hflt⟩
  · rintro ⟨o, hmem, hdel⟩
    exact List.mem_map.mpr ⟨(k, o), List.mem_filter.mpr ⟨hmem, by simpa using hdel⟩, rfl⟩

theorem outerLoopFuel_cons_skip {fuel : Nat} {k0 : ObjectId} {b : MObj} {rest : AList}
    (h : (b.flags || !needsEmit b) = true) :
    outerLoopFuel (fuel + 1) ((k0, b) :: rest)
      = ((k0, b) :: (outerLoopFuel fuel rest).1, (outerLoopFuel fuel rest).2) := by
  simp [outerLoopFuel, h]

theorem outerLoopFuel_cons_group {fuel : Nat} {k0 : ObjectId} {b : MObj} {rest : AList}
    (h : (b.flags || !needsEmit b) = false) :
    outerLoopFuel (fuel + 1) ((k0, b) :: rest)
      = ((k0, (visitObj b b).1) :: (outerLoopFuel fuel (innerUpd b rest)).1,
         ((match (visitObj b b).2.1 with | some e => [e] | none => [])
             ++ innerEntries b rest)
           :: (outerLoopFuel fuel (innerUpd b rest)).2.1,
         ((if (visitObj b b).2.2 then [k0] else []) ++ innerDels b rest)
           ++ (outerLoopFuel fuel (innerUpd b rest)).2.2) := by
  simp [outerLoopFuel, h]

theorem outerLoopFuel_find_isDeleted :
    ∀ (fuel : Nat) (l : AList) (k : ObjectId) (o : MObj),
    l.length ≤ fuel → assocFind l k = some o →
    ∃ o2, assocFind (outerLoopFuel fuel l).1 k = some o2 ∧
      o2.isDeleted = o.isDeleted := by
  intro fuel
  induction fuel with
  | zero =>
    intro l k o hlen hfind
    cases l with
    | nil => simp [assocFind] at hfind
    | cons p rest => simp at hlen
  | succ fuel ih =>
    intro l k o hlen hfind
    cases l with
    | nil => simp [assocFind] at hfind
    | cons p rest =>
      rcases p with ⟨k0, b⟩
      have hlen2 : rest.length ≤ fuel := by
        simp only [List.length_cons] at hlen
        omega
      by_cases hskip : (b.flags || !needsEmit b) = true
      · rw [outerLoopFuel_cons_skip hskip]
        by_cases hk : k0 = k
        · subst hk
          have hbo : b = o := by
            simpa [assocFind] using hfind
          subst hbo
          exact ⟨b, by simp [assocFind], rfl⟩
        · have hfind2 : assocFind rest k = some o := by
            simpa [assocFind, hk] using hfind
          obtain ⟨o2, h1, h2⟩ := ih rest k o hlen2 hfind2
          refine ⟨o2, ?_, h2⟩
          simpa [assocFind, hk] using h1
      · rw [outerLoopFuel_cons_group (Bool.not_eq_true _ ▸ hskip)]
        by_cases hk : k0 = k
        · subst hk
          have hbo : b = o := by
            simpa [assocFind] using hfind
          subst hbo
          exact ⟨(visitObj b b).1, by simp [assocFind], visitObj_fst_isDeleted b b⟩
        · have hfind2 : assocFind rest k = some o := by
            simpa [assocFind, hk] using hfind
          have hupd : assocFind (innerUpd b rest) k = some ((visitObj b o).1) := by
            rw [assocFind_innerUpd, hfind2]
            rfl
          have hlen3 : (innerUpd b rest).length ≤ fuel := by
            rw [innerUpd_length]
            exact hlen2
          obtain ⟨o2, hfind3, hdel2⟩ := ih (innerUpd b rest) k _ hlen3 hupd
          refine ⟨o2, ?_, hdel2.trans (visitObj_fst_isDeleted b o)⟩
          simpa [assocFind, hk] using hfind3

theorem outerLoopFuel_dels_deleted :
    ∀ (fuel : Nat) (l : AList) (k : ObjectId),
    l.length ≤ fuel → k ∈ (outerLoopFuel fuel l).2.2 →
    ∃ o, (k, o) ∈ l ∧ o.isDeleted = true := by
  intro fuel
  induction fuel with
  | zero =>
    intro l k hlen hk
    cases l with
    | nil => simp [outerLoopFuel] at hk
    | cons p rest => simp at hlen
  | succ fuel ih =>
    intro l k hlen hk
    cases l with
    | nil => simp [outerLoopFuel] at hk
    | cons p rest =>
      rcases p with ⟨k0, b⟩
      have hlen2 : rest.length ≤ fuel := by
        simp only [List.length_cons] at hlen
        omega
      by_cases hskip : (b.flags || !needsEmit b) = true
      · rw [outerLoopFuel_cons_skip hskip] at hk
        obtain ⟨o, hmem, hdel⟩ := ih rest k hlen2 hk
        exact ⟨o, List.mem_cons_of_mem _ hmem, hdel⟩
      · rw [outerLoopFuel_cons_group (Bool.not_eq_true _ ▸ hskip)] at hk
        simp only [List.mem_append] at hk
        rcases hk with (hk | hk) | hk
        · by_cases hdel : (visitObj b b).2.2 = true
          · rw [if_pos hdel] at hk
            simp only [List.mem_singleton] at hk
            subst hk
            exact ⟨b, List.mem_cons_self _ _, visitObj_del_isDeleted hdel⟩
          · rw [if_neg hdel] at hk
            simp at hk
        · obtain ⟨o, hmem, hdel⟩ := mem_innerDels.mp hk
          exact ⟨o, List.mem_cons_of_mem _ hmem, visitObj_del_isDeleted hdel⟩
        · have hlen3 : (innerUpd b rest).length ≤ fuel := by
            rw [innerUpd_length]
            exact hlen2
          obtain ⟨o2, hmem2, hdel2⟩ := ih (innerUpd b rest) k hlen3 hk
          obtain ⟨o, hmem, heq⟩ := mem_innerUpd hmem2
          refine ⟨o, List.mem_cons_of_mem _ hmem, ?_⟩
          rw [← visitObj_fst_isDeleted b o, ← heq]
          exact hdel2

theorem outerLoopFuel_deleted_in_dels :
    ∀ (fuel : Nat) (l : AList) (k : ObjectId) (o : MObj),
    l.length ≤ fuel → (k, o) ∈ l → o.isDeleted = true → o.flags = false →
    k ∈ (outerLoopFuel fuel l).2.2 := by
  intro fuel
  induction fuel with
  | zero =>
    intro l k o hlen hmem hdel hflag
    cases l with
    | nil => cases hmem
    | cons p rest => simp at hlen
  | succ fuel ih =>
    intro l k o hlen hmem hdel hflag
    cases l with
    | nil => cases hmem
    | cons p rest =>
      rcases p with ⟨k0, b⟩
      have hlen2 : rest.length ≤ fuel := by
        simp only [List.length_cons] at hlen
        omega
      by_cases hskip : (b.flags || !needsEmit b) = true
      · rw [outerLoopFuel_cons_skip hskip]
        rcases List.mem_cons.mp hmem with hhead | htail
        · simp only [Prod.mk.injEq] at hhead
          obtain ⟨h1, h2⟩ := hhead
          subst h1
          subst h2
          exfalso
          have hne : needsEmit o = true := by
            unfold needsEmit
            rw [hdel]
            simp
          rw [hflag, hne] at hskip
          simp at hskip
        · exact ih rest k o hlen2 htail hdel hflag
      · rw [outerLoopFuel_cons_group (Bool.not_eq_true _ ▸ hskip)]
        simp only [List.mem_append]
        rcases List.mem_cons.mp hmem with hhead | htail
        · simp only [Prod.mk.injEq] at hhead
          obtain ⟨h1, h2⟩ := hhead
          subst h1
          subst h2
          left
          left
          have hbflag : o.flags = false := hflag
          have hcond : (isSameClass o o && !o.flags) = true := by
            rw [isSameClass_refl, hbflag]
            rfl
          have hv : (visitObj o o).2.2 = true := by
            rw [visitObj_visited_del hcond]
            exact hdel
          rw [if_pos hv]
          simp
        · by_cases hsame : isSameClass b o = true
          · left
            right
            have hcond : (isSameClass b o && !o.flags) = true := by
              rw [hsame, hflag]
              rfl
            refine mem_innerDels.mpr ⟨o, htail, ?_⟩
            rw [visitObj_visited_del hcond]
            exact hdel
          · right
            have hcond : (isSameClass b o && !o.flags) = false := by
              rw [Bool.not_eq_true] at hsame
              rw [hsame]
              rfl
            have hmem2 : (k, o) ∈ innerUpd b rest := by
              have := innerUpd_mem (b := b) htail
              rwa [visitObj_not_visited hcond] at this
            have hlen3 : (innerUpd b rest).length ≤ fuel := by
              rw [innerUpd_length]
              exact hlen2
            exact ih (innerUpd b rest) k o hlen3 hmem2 hdel hflag

theorem prepObject_flags (cwa : Bool) (o : MObj) : (prepObject cwa o).flags = false := rfl

theorem preparedMap_flags {s : AgentPubState} {k : ObjectId} {o : MObj}
    (h : (k, o) ∈ preparedMap s) : o.flags = false := by
  unfold preparedMap at h
  rcases List.mem_map.mp h with ⟨p, _, he⟩
  rcases p with ⟨p1, p2⟩
  simp only [Prod.mk.injEq] at he
  rw [← he.2]
  exact prepObject_flags _ _

/-- C6: after a publication pass completes (connected, distinct object ids),
every object the pass observed with isDeleted = true has been removed from
the live object map, and every object without isDeleted = true remains in
it. The pass observes the prepared map: staged objects merged in, flags
cleared. -/
theorem periodicProcessing_reaps_deleted (s : AgentPubState)
    (hconn : s.connected = true)
    (hnd : ((preparedMap s).map Prod.fst).Nodup) :
    ∀ k o, (k, o) ∈ preparedMap s →
      (o.isDeleted = true →
        assocFind ((periodicProcessing s).1.managementObjects) k = none) ∧
      (o.isDeleted = false →
        ∃ o2, assocFind ((periodicProcessing s).1.managementObjects) k = some o2 ∧
          o2.isDeleted = false) := by
  intro k o hmem
  have hpp : (periodicProcessing s).1.managementObjects
      = reapDeleted (outerLoop (preparedMap s)).1 (outerLoop (preparedMap s)).2.2 := by
    unfold periodicProcessing
    rw [hconn]
    simp
  rw [hpp]
  have hflag : o.flags = false := preparedMap_flags hmem
  constructor
  · intro hdel
    have hk : k ∈ (outerLoop (preparedMap s)).2.2 :=
      outerLoopFuel_deleted_in_dels (preparedMap s).length (preparedMap s) k o
        (le_refl _) hmem hdel hflag
    unfold reapDeleted
    rw [assocFind_eraseFold]
    rw [if_pos (List.mem_reverse.mpr hk)]
  · intro hndel
    have hfind : assocFind (preparedMap s) k = some o :=
      assocFind_eq_some_of_mem hnd hmem
    obtain ⟨o2, hfind2, hdel2⟩ :=
      outerLoopFuel_find_isDeleted (preparedMap s).length (preparedMap s) k o
        (le_refl _) hfind
    have hnotin : k ∉ (outerLoop (preparedMap s)).2.2 := by
      intro hk
      obtain ⟨o3, hmem3, hdel3⟩ :=
        outerLoopFuel_dels_deleted (preparedMap s).length (preparedMap s) k
          (le_refl _) hk
      have ho : o3 = o := assocFind_value_unique hnd hmem3 hmem
      rw [ho, hndel] at hdel3
      cases hdel3
    unfold reapDeleted
    rw [assocFind_eraseFold]
    rw [if_neg (fun hin => hnotin (List.mem_reverse.mp hin))]
    exact ⟨o2, hfind2, hdel2.trans hndel⟩

def sampleDeletedOid : ObjectId := ⟨6, "gone"⟩

/-- A connected agent holding one deleted and one live object. -/
def samplePubState : AgentPubState :=
  { connected := true
    clientWasAdded := false
    managementObjects :=
      [(sampleDeletedOid,
        { sampleObj with objectId := sampleDeletedOid, isDeleted := true }),
       (sampleOid, { sampleObj with objectId := sampleOid })]
    newManagementObjects := [] }

/-- Witness for periodicProcessing_reaps_deleted at samplePubState. -/
theorem periodicProcessing_reaps_deleted_witness :
    samplePubState.connected = true ∧
    ((preparedMap samplePubState).map Prod.fst).Nodup ∧
    (∀ k o, (k, o) ∈ preparedMap samplePubState →
      (o.isDeleted = true →
        assocFind ((periodicProcessing samplePubState).1.managementObjects) k = none) ∧
      (o.isDeleted = false →
        ∃ o2, assocFind ((periodicProcessing samplePubState).1.managementObjects) k
            = some o2 ∧ o2.isDeleted = false)) :=
  ⟨rfl, by decide, periodicProcessing_reaps_deleted samplePubState rfl (by decide)⟩

end ManagementAgent
